import Mathlib

/-!
# rsmc-ortho: command-line front end of the ortho-rectification tool

A shallow embedding of `RS-Ortho-Rectify/rsmc-ortho.cpp`.

Modelling conventions

* A C string is a `String`; `strlen` is its number of characters and reading
  the byte at index `strlen` yields the terminating NUL.  The program never
  calls `setlocale`, so `isalpha` and `isspace` are those of the "C" locale.
* `exit(n)` is the outcome `Outcome.exit n`; text written to `cout`/`cerr`
  is not modelled, so the `tag` arguments that only feed error messages are
  dropped.
* `int &argPos` is threaded through explicitly: a function that advances the
  argument cursor returns the new cursor next to its value.
* The three `sscanf` conversions (`%d`, `%lf`, `%f`), the comparison of a
  `double` with `0.0` and the file-system queries are library code; they are
  taken as the fields of an environment `Env`.  `getArg` rejects empty and
  all-blank arguments before any conversion runs, so `sscanf` never reports
  end of input: it returns 0 (`none`) or 1 (`some v`).
* `argv` is a list and `main` passes its length as `argc`.  A read at or past
  the length gives `getArg` the `NIL` pointer that `argv[argc]` holds; the
  loop of `readCli` reads below `argc` only.
* Loops run on a fuel counter; the callers supply `argCount + 1`, which the
  lemmas below show to be enough.
-/

namespace RsmcOrtho

/-! ## Outcomes -/

/-- Result of running a piece of the program. -/
inductive Outcome (α : Type) where
  /-- The function returned normally. -/
  | ok (a : α)
  /-- The program called `exit(code)`. -/
  | exit (code : Nat)
  /-- The loop bound of the model was exhausted. -/
  | fuel
deriving DecidableEq, Repr

/-- Sequencing: a later statement runs only if the earlier one returned. -/
def Outcome.bind {α β : Type} (x : Outcome α) (f : α → Outcome β) : Outcome β :=
  match x with
  | .ok a => f a
  | .exit c => .exit c
  | .fuel => .fuel

instance : Monad Outcome where
  pure := Outcome.ok
  bind := Outcome.bind

/-! ## Types -/

/-- Source `TPoint` (`cv::Point2f`) over a carrier `F` for `float`. -/
structure TPoint (F : Type) where
  x : F
  y : F
deriving DecidableEq, Repr

/-- Source `TPoints`. -/
abbrev TPoints (F : Type) := List (TPoint F)

/-- Source `TBBox`, fields in declaration order, over a carrier `R` for
`double`. -/
structure TBBox (R : Type) where
  xmin : R
  xmax : R
  ymin : R
  ymax : R
deriving DecidableEq, Repr

/-- Library routines the front end calls. -/
structure Env (R F : Type) where
  /-- Conversion `sscanf(arg, "%d", &res)`; `none` when it returns 0. -/
  scanInt : String → Option Int
  /-- Conversion `sscanf(arg, "%lf", &res)`; `none` when it returns 0. -/
  scanReal : String → Option R
  /-- Conversion `sscanf(arg, "%f", &x)`; `none` when it returns 0. -/
  scanFloat : String → Option F
  /-- The `double` literal `0.` that `main` stores in the bounding box. -/
  zeroReal : R
  /-- Comparison `v == 0.0` on `double`. -/
  isZero : R → Bool
  /-- Boost `TPath(p).parent_path()`. -/
  parentPath : String → String
  /-- Boost `fs::is_directory`. -/
  isDirectory : String → Bool
  /-- Boost `fs::exists`. -/
  fileExists : String → Bool

/-! ## Character and string helpers -/

/-- C `strlen`. -/
def strlen (s : String) : Nat := s.data.length

/-- Byte `s[i]` of a C string, for `i` up to and including `strlen s`. -/
def charAt (s : String) (i : Nat) : Char := s.data.getD i (Char.ofNat 0)

/-- C `isalpha` in the "C" locale. -/
def isalpha (c : Char) : Bool :=
  (65 ≤ c.toNat && c.toNat ≤ 90) || (97 ≤ c.toNat && c.toNat ≤ 122)

/-- C `isspace` in the "C" locale: space, `\t`, `\n`, `\v`, `\f`, `\r`. -/
def isspace (c : Char) : Bool :=
  c.toNat == 32 || (9 ≤ c.toNat && c.toNat ≤ 13)

/-- Source `isSpace`: every character of the string is white space. -/
def isSpace (s : String) : Bool := s.data.all isspace

/-! ## Service routines -/

/-- Source `getArg`: the argument under the cursor, and the advanced cursor. -/
def getArg (argCount : Nat) (args : List String) (argPos : Nat) :
    Outcome (String × Nat) :=
  if argPos ≥ argCount then .exit 255
  else
    match args[argPos]? with
    | none => .exit 255
    | some res =>
      if strlen res == 0 || isSpace res then .exit 255
      else .ok (res, argPos + 1)

/-- Source `checkArgCount`. -/
def checkArgCount (argCount argPos argMore : Nat) : Outcome Unit :=
  if argPos + argMore > argCount then .exit 255 else .ok ()

/-- Source `checkPathExists`. -/
def checkPathExists {R F : Type} (env : Env R F) (aPath : String) : Outcome Unit :=
  if !env.isDirectory aPath then .exit 255 else .ok ()

/-- Source `checkFileExists`. -/
def checkFileExists {R F : Type} (env : Env R F) (strFile : String) : Outcome Unit :=
  if !env.fileExists strFile then .exit 255 else .ok ()

/-- Source `checkParamInit`. -/
def checkParamInit (ok : Bool) : Outcome Unit :=
  if !ok then .exit 255 else .ok ()

/-- Source `isArgParam`. -/
def isArgParam (arg : String) : Bool :=
  let len := strlen arg
  if len > 1 && charAt arg 0 == '-' && isalpha (charAt arg 1) then true
  else if len > 2 && charAt arg 0 == '-' && charAt arg 1 == '-'
      && isalpha (charAt arg 2) then true
  else false

/-- Source `getArgStr`. -/
def getArgStr (argCount : Nat) (args : List String) (argPos : Nat) :
    Outcome (String × Nat) :=
  match getArg argCount args argPos with
  | .ok (res, argPos) => if isArgParam res then .exit 255 else .ok (res, argPos)
  | .exit c => .exit c
  | .fuel => .fuel

/-- Source `getArgInt`. -/
def getArgInt {R F : Type} (env : Env R F) (argCount : Nat) (args : List String)
    (argPos : Nat) : Outcome (Int × Nat) :=
  match getArgStr argCount args argPos with
  | .ok (arg, argPos) =>
    match env.scanInt arg with
    | none => .exit 255
    | some res => .ok (res, argPos)
  | .exit c => .exit c
  | .fuel => .fuel

/-- Source `getArgReal`. -/
def getArgReal {R F : Type} (env : Env R F) (argCount : Nat) (args : List String)
    (argPos : Nat) : Outcome (R × Nat) :=
  match getArgStr argCount args argPos with
  | .ok (arg, argPos) =>
    match env.scanReal arg with
    | none => .exit 255
    | some res => .ok (res, argPos)
  | .exit c => .exit c
  | .fuel => .fuel

/-- Loop condition of `getArgPoints`: `!(isArgParam(arg) || argPos >= argCount)`. -/
def morePoints (argCount : Nat) (arg : String) (argPos : Nat) : Bool :=
  !(isArgParam arg || decide (argPos ≥ argCount))

/-- The `while` loop of `getArgPoints` on the loop variables `arg`, `argPos`
and `list`. -/
def getArgPointsLoop {R F : Type} (env : Env R F) (argCount : Nat) (args : List String) :
    Nat → String → Nat → TPoints F → Outcome (Nat × TPoints F)
  | 0, _, _, _ => .fuel
  | fuel + 1, arg, argPos, list =>
    if morePoints argCount arg argPos then
      match env.scanFloat arg with
      | none => .exit 255
      | some x =>
        match getArg argCount args argPos with
        | .ok (arg, argPos) =>
          match env.scanFloat arg with
          | none => .exit 255
          | some y =>
            let list := list ++ [TPoint.mk x y]
            if argPos < argCount then
              match getArg argCount args argPos with
              | .ok (arg, argPos) =>
                getArgPointsLoop env argCount args fuel arg argPos list
              | .exit c => .exit c
              | .fuel => .fuel
            else getArgPointsLoop env argCount args fuel arg (argPos + 1) list
        | .exit c => .exit c
        | .fuel => .fuel
    else .ok (argPos, list)

/-- Source `getArgPoints`: the new cursor and the extended point list. -/
def getArgPoints {R F : Type} (env : Env R F) (argCount : Nat) (args : List String)
    (argPos : Nat) (list : TPoints F) : Outcome (Nat × TPoints F) :=
  match getArg argCount args argPos with
  | .ok (arg, argPos) =>
    match getArgPointsLoop env argCount args (argCount + 1) arg argPos list with
    | .ok (argPos, list) =>
      .ok (if argPos < argCount then argPos - 1 else argPos, list)
    | .exit c => .exit c
    | .fuel => .fuel
  | .exit c => .exit c
  | .fuel => .fuel

/-! ## Command-line parser -/

/-- The variables `readCli` receives by reference. -/
structure CliVars (R F : Type) where
  inImage : String
  outImage : String
  ImageBBox : TBBox R
  ImageWidth : Int
  ImageHeight : Int
  IcpsOriginal : TPoints F
  IcpsMapped : TPoints F
deriving DecidableEq, Repr

/-- One pass through the body of the `while (argPos < argc)` loop of
`readCli`, started with the cursor at `argPos`. -/
def readCliBody {R F : Type} (env : Env R F) (argc : Nat) (argv : List String)
    (argPos : Nat) (v : CliVars R F) : Outcome (Nat × CliVars R F) :=
  let arg := argv.getD argPos ""
  let argPos := argPos + 1
  if argPos == 1 then .ok (argPos, v)
  else if arg == "-B" || arg == "--bbox" then do
    checkArgCount argc argPos 4
    let (xmin, argPos) ← getArgReal env argc argv argPos
    let (xmax, argPos) ← getArgReal env argc argv argPos
    let (ymin, argPos) ← getArgReal env argc argv argPos
    let (ymax, argPos) ← getArgReal env argc argv argPos
    pure (argPos, { v with ImageBBox := { xmin := xmin, xmax := xmax, ymin := ymin, ymax := ymax } })
  else if arg == "-I" || arg == "--incoming-image" then do
    let (res, argPos) ← getArgStr argc argv argPos
    pure (argPos, { v with inImage := res })
  else if arg == "-R" || arg == "--rectified-image" then do
    let (res, argPos) ← getArgStr argc argv argPos
    pure (argPos, { v with outImage := res })
  else if arg == "-S" || arg == "--image-size" then do
    checkArgCount argc argPos 2
    let (w, argPos) ← getArgInt env argc argv argPos
    let (h, argPos) ← getArgInt env argc argv argPos
    pure (argPos, { v with ImageWidth := w, ImageHeight := h })
  else if arg == "-O" || arg == "--original-icps" then do
    let (argPos, list) ← getArgPoints env argc argv argPos v.IcpsOriginal
    pure (argPos, { v with IcpsOriginal := list })
  else if arg == "-M" || arg == "--mapped-icps" then do
    let (argPos, list) ← getArgPoints env argc argv argPos v.IcpsMapped
    pure (argPos, { v with IcpsMapped := list })
  else if arg == "-h" || arg == "--help" then .exit 1
  else if arg == "-v" || arg == "--version" then .exit 1
  else .exit 255

/-- The `while (argPos < argc)` loop of `readCli`. -/
def readCliLoop {R F : Type} (env : Env R F) (argc : Nat) (argv : List String) :
    Nat → Nat → CliVars R F → Outcome (CliVars R F)
  | 0, _, _ => .fuel
  | fuel + 1, argPos, v =>
    if argPos < argc then
      match readCliBody env argc argv argPos v with
      | .ok (argPos, v) => readCliLoop env argc argv fuel argPos v
      | .exit c => .exit c
      | .fuel => .fuel
    else .ok v

/-- The assertions at the end of `readCli`. -/
def readCliChecks {R F : Type} (env : Env R F) (v : CliVars R F) : Outcome Unit := do
  checkParamInit (v.inImage != "")
  checkParamInit (v.outImage != "")
  checkParamInit (!(env.isZero v.ImageBBox.xmin || env.isZero v.ImageBBox.xmax
    || env.isZero v.ImageBBox.ymin || env.isZero v.ImageBBox.ymax))
  checkParamInit (decide (v.ImageWidth > 0) && decide (v.ImageHeight > 0))
  checkParamInit (decide (v.IcpsMapped.length > 3))
  checkParamInit (decide (v.IcpsOriginal.length > 3))
  if v.IcpsMapped.length != v.IcpsOriginal.length then Outcome.exit 255
  else do
    checkPathExists env (env.parentPath v.outImage)
    checkFileExists env v.inImage

/-- Source `readCli`: the values of the reference parameters on return. -/
def readCli {R F : Type} (env : Env R F) (argc : Nat) (argv : List String)
    (v : CliVars R F) : Outcome (CliVars R F) :=
  match readCliLoop env argc argv (argc + 1) 0 v with
  | .ok v =>
    match readCliChecks env v with
    | .ok _ => .ok v
    | .exit c => .exit c
    | .fuel => .fuel
  | .exit c => .exit c
  | .fuel => .fuel

/-! ## Main routine -/

/-- The arguments `main` hands to the OpenCV routines after `readCli` has
returned, in call order. -/
structure Rectify (F : Type) where
  /-- File given to `cv::imread`. -/
  imread : String
  /-- First argument of `getPerspectiveTransform`. -/
  src : TPoints F
  /-- Second argument of `getPerspectiveTransform`. -/
  dst : TPoints F
  /-- Destination size `Size(imgWidth, imgHeight)` given to `warpPerspective`. -/
  dsize : Int × Int
  /-- File given to `imwrite`. -/
  imwrite : String
deriving DecidableEq, Repr

/-- The values `main` initialises its variables with. -/
def mainInit {R F : Type} (env : Env R F) : CliVars R F :=
  { inImage := "", outImage := "",
    ImageBBox := { xmin := env.zeroReal, xmax := env.zeroReal,
                   ymin := env.zeroReal, ymax := env.zeroReal },
    ImageWidth := -1, ImageHeight := -1,
    IcpsOriginal := [], IcpsMapped := [] }

/-- Source `main` up to its OpenCV calls: either the program exits inside
`readCli`, before any of them, or it goes on to make them with these
arguments. -/
def main {R F : Type} (env : Env R F) (argv : List String) : Outcome (Rectify F) :=
  match readCli env argv.length argv (mainInit env) with
  | .ok v =>
    .ok { imread := v.inImage, src := v.IcpsOriginal, dst := v.IcpsMapped,
          dsize := (v.ImageWidth, v.ImageHeight), imwrite := v.outImage }
  | .exit c => .exit c
  | .fuel => .fuel

/-! ## A concrete environment

Used to run the parser on concrete command lines.  Its conversions agree
with `sscanf` on the arguments they are applied to below: optionally signed
decimal integers. -/

/-- Value of a string of decimal digits. -/
def digitsValue (ds : List Char) : Nat :=
  ds.foldl (fun acc c => 10 * acc + (c.toNat - 48)) 0

/-- Leading decimal digits of a character list, if there are any. -/
def scanDigits (cs : List Char) : Option Nat :=
  let ds := cs.takeWhile fun c => decide (48 ≤ c.toNat) && decide (c.toNat ≤ 57)
  if ds.isEmpty then none else some (digitsValue ds)

/-- Integer conversion: blanks, an optional sign, decimal digits. -/
def scanDec (s : String) : Option Int :=
  match s.data.dropWhile isspace with
  | '-' :: ds => (scanDigits ds).map fun n => -(n : Int)
  | '+' :: ds => (scanDigits ds).map fun n => (n : Int)
  | ds => (scanDigits ds).map fun n => (n : Int)

/-- Path without its last component. -/
def dirName (p : String) : String :=
  String.mk (((p.data.reverse.dropWhile fun c => c != '/').drop 1).reverse)

/-- An environment with the directory `/data` holding the file
`/data/in.tif`. -/
def decEnv : Env Int Int :=
  { scanInt := scanDec, scanReal := scanDec, scanFloat := scanDec,
    zeroReal := 0, isZero := fun r => r == 0,
    parentPath := dirName,
    isDirectory := fun p => p == "/data",
    fileExists := fun p => p == "/data/in.tif" }

/-! ## Specification vocabulary -/

/-- Consecutive values grouped two by two into points. -/
def pairUp {F : Type} : List F → TPoints F
  | a :: b :: rest => TPoint.mk a b :: pairUp rest
  | _ => []

/-- The argument selects the image-size option in `readCli`. -/
def isSizeTag (arg : String) : Bool := arg == "-S" || arg == "--image-size"

/-- Cursor positions at which the loop of `readCli` dispatches on an option
(every pass but the one that skips the program name), in order; it follows
`readCliLoop` step by step. -/
def optionPositions {R F : Type} (env : Env R F) (argc : Nat) (argv : List String) :
    Nat → Nat → CliVars R F → List Nat
  | 0, _, _ => []
  | fuel + 1, argPos, v =>
    if argPos < argc then
      (if argPos = 0 then [] else [argPos]) ++
        match readCliBody env argc argv argPos v with
        | .ok (argPos, v) => optionPositions env argc argv fuel argPos v
        | _ => []
    else []

/-- The argument selects the help or the version option in `readCli`. -/
def isInfoTag (arg : String) : Bool :=
  arg == "-h" || arg == "--help" || arg == "-v" || arg == "--version"

/-- The point lists held when the loop of `readCli` stops, be it at the end of
the arguments or in a pass that ends the program; it follows `readCliLoop`
step by step. -/
def listsRead {R F : Type} (env : Env R F) (argc : Nat) (argv : List String) :
    Nat → Nat → CliVars R F → TPoints F × TPoints F
  | 0, _, v => (v.IcpsOriginal, v.IcpsMapped)
  | fuel + 1, argPos, v =>
    if argPos < argc then
      match readCliBody env argc argv argPos v with
      | .ok (argPos, v) => listsRead env argc argv fuel argPos v
      | _ => (v.IcpsOriginal, v.IcpsMapped)
    else (v.IcpsOriginal, v.IcpsMapped)

/-- What one pass of the loop of `readCli` at cursor `p` does to the image
size: a pass that dispatches on the image-size option stores the conversions
of the two arguments after it, any other pass keeps the size. -/
def SizeStep {R F : Type} (env : Env R F) (argv : List String) (p : Nat)
    (v w : CliVars R F) : Prop :=
  (p ≠ 0 ∧ isSizeTag (argv.getD p "") = true ∧
    ∃ s1 s2, argv[p + 1]? = some s1 ∧ argv[p + 2]? = some s2 ∧
      env.scanInt s1 = some w.ImageWidth ∧ env.scanInt s2 = some w.ImageHeight) ∨
  ((p = 0 ∨ isSizeTag (argv.getD p "") = false) ∧
    w.ImageWidth = v.ImageWidth ∧ w.ImageHeight = v.ImageHeight)

/-! ## Basic facts -/

@[simp] theorem Outcome.ok_bind {α β : Type} (a : α) (f : α → Outcome β) :
    (Outcome.ok a >>= f) = f a := rfl

@[simp] theorem Outcome.exit_bind {α β : Type} (c : Nat) (f : α → Outcome β) :
    ((Outcome.exit c : Outcome α) >>= f) = Outcome.exit c := rfl

@[simp] theorem Outcome.fuel_bind {α β : Type} (f : α → Outcome β) :
    ((Outcome.fuel : Outcome α) >>= f) = Outcome.fuel := rfl

@[simp] theorem Outcome.pure_eq {α : Type} (a : α) :
    (pure a : Outcome α) = Outcome.ok a := rfl

/-! ## Tag recognition -/

theorem isArgParam_iff (s : String) :
    isArgParam s = true ↔
      (∃ c rest, s.data = '-' :: c :: rest ∧ isalpha c = true) ∨
      (∃ c rest, s.data = '-' :: '-' :: c :: rest ∧ isalpha c = true) := by
  obtain ⟨cs⟩ := s
  match cs with
  | [] => simp [isArgParam, strlen, charAt]
  | [a] => simp [isArgParam, strlen, charAt]
  | [a, b] =>
    simp [isArgParam, strlen, charAt]
    constructor
    · rintro ⟨h1, h2⟩
      exact ⟨b, ⟨h1, rfl⟩, h2⟩
    · rintro ⟨c, ⟨h1, rfl⟩, h2⟩
      exact ⟨h1, h2⟩
  | a :: b :: c :: rest =>
    simp [isArgParam, strlen, charAt]
    constructor
    · rintro (⟨h1, h2⟩ | ⟨⟨h1, h2⟩, h3⟩)
      · exact Or.inl ⟨b, ⟨h1, rfl⟩, h2⟩
      · exact Or.inr ⟨c, ⟨h1, h2, rfl⟩, h3⟩
    · rintro (⟨x, ⟨h1, rfl⟩, h2⟩ | ⟨x, ⟨h1, h2, rfl⟩, h3⟩)
      · exact Or.inl ⟨h1, h2⟩
      · exact Or.inr ⟨⟨h1, h2⟩, h3⟩

theorem isalpha_iff (c : Char) :
    isalpha c = true ↔ ('A' ≤ c ∧ c ≤ 'Z') ∨ ('a' ≤ c ∧ c ≤ 'z') := by
  simp [isalpha, Char.le_def, Char.toNat, UInt32.le_def, BitVec.le_def]
  exact Iff.rfl

theorem not_isalpha_of_digit (c : Char) (h : ('0' ≤ c ∧ c ≤ '9') ∨ c = '.') :
    isalpha c = false ∧ c ≠ '-' := by
  rcases h with ⟨h1, h2⟩ | rfl
  · simp [Char.le_def, UInt32.le_def, BitVec.le_def] at h1 h2
    have hb : c.val.toBitVec.toNat = c.val.toNat := rfl
    constructor
    · simp [isalpha, Char.toNat]
      omega
    · rintro rfl
      simp at h1
  · decide

theorem isSpace_of_isArgParam (s : String) (h : isArgParam s = true) :
    isSpace s = false := by
  rw [isArgParam_iff] at h
  rcases h with ⟨c, rest, hd, -⟩ | ⟨c, rest, hd, -⟩ <;>
    simp [isSpace, hd, isspace]

theorem getArg_eq_ok (argCount : Nat) (args : List String) (argPos : Nat) (s : String)
    (hpos : argPos < argCount) (hs : args[argPos]? = some s) (hsp : isSpace s = false) :
    getArg argCount args argPos = .ok (s, argPos + 1) := by
  have h0 : ¬ argPos ≥ argCount := by omega
  have h1 : strlen s ≠ 0 := by
    intro h
    have hd : s.data = [] := List.length_eq_zero.mp h
    simp [isSpace, hd] at hsp
  simp [getArg, h0, hs, hsp, h1]

theorem isArgParam_of_number (s : String) (d : Char) (rest : List Char)
    (hs : s.data = '-' :: d :: rest) (hd : ('0' ≤ d ∧ d ≤ '9') ∨ d = '.') :
    isArgParam s = false := by
  obtain ⟨h1, h2⟩ := not_isalpha_of_digit d hd
  cases h : isArgParam s with
  | false => rfl
  | true =>
    rw [isArgParam_iff] at h
    rcases h with ⟨c, r, hc, ha⟩ | ⟨c, r, hc, -⟩
    · rw [hs] at hc
      simp at hc
      rw [hc.1] at h1
      simp [h1] at ha
    · rw [hs] at hc
      simp at hc
      exact absurd hc.1 h2

/-- C8: `isArgParam` accepts exactly the strings made of `-` and a letter,
or of `--` and a letter, followed by anything; a string that starts with `-`
and a digit or a dot is no tag, so `getArgStr` returns it as a value and the
point loop of `getArgPoints` does not stop on it while arguments remain. -/
theorem isArgParam_spec :
    (∀ s : String, isArgParam s = true ↔
      (∃ c rest, s.data = '-' :: c :: rest ∧
        (('A' ≤ c ∧ c ≤ 'Z') ∨ ('a' ≤ c ∧ c ≤ 'z'))) ∨
      (∃ c rest, s.data = '-' :: '-' :: c :: rest ∧
        (('A' ≤ c ∧ c ≤ 'Z') ∨ ('a' ≤ c ∧ c ≤ 'z')))) ∧
    (∀ (s : String) (d : Char) (rest : List Char), s.data = '-' :: d :: rest →
      (('0' ≤ d ∧ d ≤ '9') ∨ d = '.') →
      isArgParam s = false ∧
      (∀ (argCount : Nat) (args : List String) (argPos : Nat),
        argPos < argCount → args[argPos]? = some s →
        getArgStr argCount args argPos = .ok (s, argPos + 1)) ∧
      (∀ argCount argPos : Nat,
        morePoints argCount s argPos = decide (argPos < argCount))) := by
  refine ⟨fun s => ?_, fun s d rest hs hd => ?_⟩
  · simp only [isArgParam_iff, isalpha_iff]
  · have hf := isArgParam_of_number s d rest hs hd
    refine ⟨hf, fun argCount args argPos hpos harg => ?_, fun argCount argPos => ?_⟩
    · have hsp : isSpace s = false := by simp [isSpace, hs, isspace]
      simp [getArgStr, getArg_eq_ok argCount args argPos s hpos harg hsp, hf]
    · by_cases h : argPos < argCount
      · have h2 : ¬ argCount ≤ argPos := by omega
        simp [morePoints, hf, h, h2]
      · have h2 : argCount ≤ argPos := by omega
        simp [morePoints, hf, h, h2]

/-- C8, on the arguments `-5` and `-.25`. -/
theorem isArgParam_spec_witness :
    (isArgParam "-5" = false ∧
      getArgStr 4 ["rsmc-ortho", "-S", "-5", "7"] 2 = .ok ("-5", 3)) ∧
    morePoints 4 "-.25" 3 = decide (3 < 4) :=
  ⟨⟨(isArgParam_spec.2 "-5" '5' [] rfl (Or.inl (by decide))).1,
    (isArgParam_spec.2 "-5" '5' [] rfl (Or.inl (by decide))).2.1 4
      ["rsmc-ortho", "-S", "-5", "7"] 2 (by decide) rfl⟩,
   (isArgParam_spec.2 "-.25" '.' ['2', '5'] rfl (Or.inr rfl)).2.2 4 3⟩

/-! ## Point lists -/

theorem getElem?_after (pre suf : List String) (a : String) :
    (pre ++ a :: suf)[pre.length]? = some a := by
  rw [List.getElem?_append_right (by omega)]
  simp

theorem getElem?_after_one (pre suf : List String) (a b : String) :
    (pre ++ a :: b :: suf)[pre.length + 1]? = some b := by
  rw [List.getElem?_append_right (by omega)]
  simp

theorem getElem?_after_two (pre suf : List String) (a b c : String) :
    (pre ++ a :: b :: c :: suf)[pre.length + 2]? = some c := by
  rw [List.getElem?_append_right (by omega)]
  simp

theorem morePoints_eq_true (argCount : Nat) (arg : String) (argPos : Nat)
    (h1 : isArgParam arg = false) (h2 : argPos < argCount) :
    morePoints argCount arg argPos = true := by
  have h3 : ¬ argCount ≤ argPos := by omega
  simp [morePoints, h1, h3]

theorem morePoints_of_tag (argCount : Nat) (arg : String) (argPos : Nat)
    (h1 : isArgParam arg = true) : morePoints argCount arg argPos = false := by
  simp [morePoints, h1]

theorem morePoints_of_end (argCount : Nat) (arg : String) (argPos : Nat)
    (h1 : argCount ≤ argPos) : morePoints argCount arg argPos = false := by
  simp [morePoints, h1]

/-- The point loop entered on the first value of `k + 1` well-formed pairs
reads all of them and stops at the end of the arguments or just after the
tag that follows. -/
theorem getArgPointsLoop_pairs {R F : Type} (env : Env R F) (val : String → F)
    (post : List String)
    (hpost : post = [] ∨ ∃ t rest, post = t :: rest ∧ isArgParam t = true) :
    ∀ (k : Nat) (rest : List String), rest.length = 2 * k →
      (∀ v ∈ rest, isSpace v = false ∧ isArgParam v = false ∧
        env.scanFloat v = some (val v)) →
      ∀ (args pre : List String) (x y : String) (fuel : Nat) (list : TPoints F),
        args = pre ++ x :: y :: (rest ++ post) →
        k + 2 ≤ fuel →
        isArgParam x = false → env.scanFloat x = some (val x) →
        isSpace y = false → env.scanFloat y = some (val y) →
        getArgPointsLoop env args.length args fuel x (pre.length + 1) list
          = .ok (if post = [] then args.length + 1 else pre.length + 2 + rest.length + 1,
                 list ++ TPoint.mk (val x) (val y) :: pairUp (rest.map val)) := by
  intro k
  induction k with
  | zero =>
    intro rest hlen _ args pre x y fuel list hargs hfuel hx hsx hy hsy
    have hrest : rest = [] := List.length_eq_zero.mp (by omega)
    subst hrest
    obtain ⟨f, rfl⟩ : ∃ f, fuel = f + 2 := ⟨fuel - 2, by omega⟩
    simp only [List.nil_append] at hargs
    have hlenA : args.length = pre.length + 2 + post.length := by
      simp [hargs]; omega
    have hg1 : getArg args.length args (pre.length + 1) = .ok (y, pre.length + 1 + 1) :=
      getArg_eq_ok _ _ _ _ (by omega) (by rw [hargs]; exact getElem?_after_one _ _ _ _) hy
    rw [getArgPointsLoop, morePoints_eq_true _ _ _ hx (by omega)]
    simp only [if_true, hsx, hg1, hsy]
    rcases hpost with rfl | ⟨t, r, rfl, ht⟩
    · have h1 : ¬ (pre.length + 1 + 1 < args.length) := by simp at hlenA; omega
      rw [if_neg h1, getArgPointsLoop,
        morePoints_of_end _ _ _ (by simp at hlenA; omega)]
      simp at hlenA
      simp [pairUp]
      omega
    · have h1 : pre.length + 1 + 1 < args.length := by simp at hlenA; omega
      have hg2 : getArg args.length args (pre.length + 1 + 1)
          = .ok (t, pre.length + 1 + 1 + 1) :=
        getArg_eq_ok _ _ _ _ h1 (by rw [hargs]; exact getElem?_after_two _ _ _ _ _)
          (isSpace_of_isArgParam t ht)
      rw [if_pos h1]
      simp only [hg2]
      rw [getArgPointsLoop, morePoints_of_tag _ _ _ ht]
      simp [pairUp]
  | succ k ih =>
    intro rest hlen hrest args pre x y fuel list hargs hfuel hx hsx hy hsy
    obtain ⟨f, rfl⟩ : ∃ f, fuel = f + 1 := ⟨fuel - 1, by omega⟩
    match rest, hlen, hrest with
    | [], hlen, _ => simp at hlen
    | [_], hlen, _ => simp at hlen; omega
    | x2 :: y2 :: rest2, hlen, hrest =>
      have hlen2 : rest2.length = 2 * k := by simp at hlen; omega
      have hx2 := hrest x2 (by simp)
      have hy2 := hrest y2 (by simp)
      have hlenA : args.length = pre.length + 4 + rest2.length + post.length := by
        simp [hargs]; omega
      have hg1 : getArg args.length args (pre.length + 1) = .ok (y, pre.length + 1 + 1) :=
        getArg_eq_ok _ _ _ _ (by omega) (by rw [hargs]; exact getElem?_after_one _ _ _ _) hy
      have h1 : pre.length + 1 + 1 < args.length := by omega
      have hg2 : getArg args.length args (pre.length + 1 + 1)
          = .ok (x2, pre.length + 1 + 1 + 1) :=
        getArg_eq_ok _ _ _ _ h1
          (by rw [hargs]; exact getElem?_after_two _ _ _ _ _) hx2.1
      rw [getArgPointsLoop, morePoints_eq_true _ _ _ hx (by omega)]
      simp only [if_true, hsx, hg1, hsy, if_pos h1, hg2]
      have hargs2 : args = (pre ++ [x, y]) ++ x2 :: y2 :: (rest2 ++ post) := by
        simp [hargs]
      have key := ih rest2 hlen2 (fun v hv => hrest v (by simp [hv])) args (pre ++ [x, y])
        x2 y2 f (list ++ [TPoint.mk (val x) (val y)]) hargs2 (by omega)
        hx2.2.1 hx2.2.2 hy2.1 hy2.2.2
      have e1 : (pre ++ [x, y]).length + 1 = pre.length + 1 + 1 + 1 := by simp
      rw [e1] at key
      rw [key]
      simp [pairUp]
      split <;> omega

theorem getArgPoints_pairs {R F : Type} (env : Env R F) (val : String → F)
    (pre vs post : List String) (n : Nat) (list : TPoints F)
    (hn : 1 ≤ n) (hlen : vs.length = 2 * n)
    (hnum : ∀ v ∈ vs, isSpace v = false ∧ env.scanFloat v = some (val v))
    (htag : ∀ v ∈ vs, isArgParam v = false)
    (hpost : post = [] ∨ ∃ t rest, post = t :: rest ∧ isArgParam t = true ∧ rest ≠ []) :
    getArgPoints env (pre ++ vs ++ post).length (pre ++ vs ++ post) pre.length list
      = .ok (if post = [] then (pre ++ vs ++ post).length + 1 else pre.length + vs.length,
             list ++ pairUp (vs.map val)) := by
  match vs, hlen, hnum, htag with
  | [], hlen, _, _ => simp at hlen; omega
  | [_], hlen, _, _ => simp at hlen; omega
  | x :: y :: rest, hlen, hnum, htag =>
    have hk : rest.length = 2 * (n - 1) := by simp at hlen; omega
    have hx := hnum x (by simp)
    have hy := hnum y (by simp)
    have hargs : pre ++ x :: y :: rest ++ post = pre ++ x :: y :: (rest ++ post) := by simp
    generalize hA : pre ++ x :: y :: rest ++ post = args at *
    have hlenA : args.length = pre.length + 2 + rest.length + post.length := by
      simp [hargs]; omega
    have hg : getArg args.length args pre.length = .ok (x, pre.length + 1) :=
      getArg_eq_ok _ _ _ _ (by omega) (by rw [hargs]; exact getElem?_after _ _ _) hx.1
    have hpost2 : post = [] ∨ ∃ t r, post = t :: r ∧ isArgParam t = true := by
      rcases hpost with h | ⟨t, r, h1, h2, -⟩
      · exact Or.inl h
      · exact Or.inr ⟨t, r, h1, h2⟩
    have key := getArgPointsLoop_pairs env val post hpost2 (n - 1) rest hk
      (fun v hv => ⟨(hnum v (by simp [hv])).1, htag v (by simp [hv]),
        (hnum v (by simp [hv])).2⟩)
      args pre x y (args.length + 1) list hargs (by omega) (htag x (by simp)) hx.2 hy.1 hy.2
    simp only [getArgPoints, hg, key]
    rcases hpost with rfl | ⟨t, r, rfl, -, hr⟩
    · simp [pairUp]
    · have hr2 : 1 ≤ r.length := by
        cases r with
        | nil => exact absurd rfl hr
        | cons _ _ => simp
      simp at hlenA
      have h3 : pre.length + 2 + rest.length + 1 < args.length := by omega
      simp [pairUp, h3]
      omega

theorem readCliBody_original {R F : Type} (env : Env R F) (argv pre : List String)
    (tag : String) (v : CliVars R F) (hpre : pre ≠ [])
    (htag : tag = "-O" ∨ tag = "--original-icps")
    (harg : argv[pre.length]? = some tag) :
    readCliBody env argv.length argv pre.length v =
      match getArgPoints env argv.length argv (pre.length + 1) v.IcpsOriginal with
      | .ok (argPos, list) => .ok (argPos, { v with IcpsOriginal := list })
      | .exit c => .exit c
      | .fuel => .fuel := by
  have h0 : pre.length ≠ 0 := by
    intro h
    exact hpre (List.length_eq_zero.mp h)
  have hget : argv.getD pre.length "" = tag := by
    simp [List.getD, harg]
  rcases htag with rfl | rfl
  · simp only [readCliBody, hget]
    simp [h0]
    cases getArgPoints env argv.length argv (pre.length + 1) v.IcpsOriginal with
    | ok a => rfl
    | exit c => rfl
    | fuel => rfl
  · simp only [readCliBody, hget]
    simp [h0]
    cases getArgPoints env argv.length argv (pre.length + 1) v.IcpsOriginal with
    | ok a => rfl
    | exit c => rfl
    | fuel => rfl

theorem readCliBody_mapped {R F : Type} (env : Env R F) (argv pre : List String)
    (tag : String) (v : CliVars R F) (hpre : pre ≠ [])
    (htag : tag = "-M" ∨ tag = "--mapped-icps")
    (harg : argv[pre.length]? = some tag) :
    readCliBody env argv.length argv pre.length v =
      match getArgPoints env argv.length argv (pre.length + 1) v.IcpsMapped with
      | .ok (argPos, list) => .ok (argPos, { v with IcpsMapped := list })
      | .exit c => .exit c
      | .fuel => .fuel := by
  have h0 : pre.length ≠ 0 := by
    intro h
    exact hpre (List.length_eq_zero.mp h)
  have hget : argv.getD pre.length "" = tag := by
    simp [List.getD, harg]
  rcases htag with rfl | rfl
  · simp only [readCliBody, hget]
    simp [h0]
    cases getArgPoints env argv.length argv (pre.length + 1) v.IcpsMapped with
    | ok a => rfl
    | exit c => rfl
    | fuel => rfl
  · simp only [readCliBody, hget]
    simp [h0]
    cases getArgPoints env argv.length argv (pre.length + 1) v.IcpsMapped with
    | ok a => rfl
    | exit c => rfl
    | fuel => rfl

/-- C6: when the tag of a point list is followed by `2 * n` numeric values,
`n ≥ 1`, none of them a tag, and then by the end of the arguments or by a tag
that is not the last argument, `getArgPoints` returns the list extended by the
`n` points in order, with the cursor on the following tag, or past the end
when the values end the command line; `readCli` stores that list for `-O` and
for `-M` and resumes at that cursor. -/
theorem getArgPoints_spec {R F : Type} (env : Env R F) (val : String → F)
    (args pre vs post : List String) (tag : String) (n : Nat) (list : TPoints F)
    (hargs : args = pre ++ tag :: vs ++ post)
    (hn : 1 ≤ n) (hlen : vs.length = 2 * n)
    (hnum : ∀ v ∈ vs, isSpace v = false ∧ env.scanFloat v = some (val v))
    (htag : ∀ v ∈ vs, isArgParam v = false)
    (hpost : post = [] ∨ ∃ t rest, post = t :: rest ∧ isArgParam t = true ∧ rest ≠ []) :
    getArgPoints env args.length args (pre.length + 1) list
        = .ok (if post = [] then args.length + 1 else pre.length + 1 + vs.length,
               list ++ pairUp (vs.map val)) ∧
      (∀ t rest, post = t :: rest → args[pre.length + 1 + vs.length]? = some t) ∧
      (pre ≠ [] → ∀ v : CliVars R F,
        ((tag = "-O" ∨ tag = "--original-icps") →
          readCliBody env args.length args pre.length v
            = .ok (if post = [] then args.length + 1 else pre.length + 1 + vs.length,
                { v with IcpsOriginal := v.IcpsOriginal ++ pairUp (vs.map val) })) ∧
        ((tag = "-M" ∨ tag = "--mapped-icps") →
          readCliBody env args.length args pre.length v
            = .ok (if post = [] then args.length + 1 else pre.length + 1 + vs.length,
                { v with IcpsMapped := v.IcpsMapped ++ pairUp (vs.map val) }))) := by
  have hargs2 : args = (pre ++ [tag]) ++ vs ++ post := by simp [hargs]
  have hl : (pre ++ [tag]).length = pre.length + 1 := by simp
  have key : ∀ l : TPoints F, getArgPoints env args.length args (pre.length + 1) l
      = .ok (if post = [] then args.length + 1 else pre.length + 1 + vs.length,
             l ++ pairUp (vs.map val)) := by
    intro l
    have h := getArgPoints_pairs env val (pre ++ [tag]) vs post n l hn hlen hnum htag hpost
    rw [← hargs2, hl] at h
    exact h
  have htagAt : args[pre.length]? = some tag := by
    rw [hargs, List.append_assoc]
    exact getElem?_after _ _ _
  refine ⟨key list, ?_, fun hpre v => ⟨fun ht => ?_, fun ht => ?_⟩⟩
  · intro t rest hp
    subst hp
    have e : args = (pre ++ tag :: vs) ++ t :: rest := by simp [hargs]
    have e2 : pre.length + 1 + vs.length = (pre ++ tag :: vs).length := by simp; omega
    rw [e2, e]
    exact getElem?_after _ _ _
  · rw [readCliBody_original env args pre tag v hpre ht htagAt, key]
  · rw [readCliBody_mapped env args pre tag v hpre ht htagAt, key]

/-- C6, on a list of two points followed by the image-size option and on one
that ends the command line. -/
theorem getArgPoints_spec_witness :
    getArgPoints decEnv 9 ["rsmc-ortho", "-O", "1", "2", "3", "4", "-S", "10", "20"] 2
        [TPoint.mk 7 7]
      = .ok (6, [TPoint.mk 7 7, TPoint.mk 1 2, TPoint.mk 3 4]) ∧
    getArgPoints decEnv 4 ["rsmc-ortho", "-M", "-5", "6"] 2 []
      = .ok (5, [TPoint.mk (-5) 6]) :=
  ⟨(getArgPoints_spec decEnv (fun s => (scanDec s).getD 0)
      ["rsmc-ortho", "-O", "1", "2", "3", "4", "-S", "10", "20"]
      ["rsmc-ortho"] ["1", "2", "3", "4"] ["-S", "10", "20"] "-O" 2 [TPoint.mk 7 7]
      rfl (by decide) rfl (by decide) (by decide)
      (Or.inr ⟨"-S", ["10", "20"], rfl, by decide, by decide⟩)).1,
   (getArgPoints_spec decEnv (fun s => (scanDec s).getD 0)
      ["rsmc-ortho", "-M", "-5", "6"]
      ["rsmc-ortho"] ["-5", "6"] [] "-M" 1 []
      rfl (by decide) rfl (by decide) (by decide) (Or.inl rfl)).1⟩

/-! ## Outcomes of the service routines -/

theorem getArg_cases (argCount : Nat) (args : List String) (p : Nat) :
    getArg argCount args p = .exit 255 ∨
      ∃ s, getArg argCount args p = .ok (s, p + 1) ∧ p < argCount ∧
        args[p]? = some s ∧ isSpace s = false := by
  unfold getArg
  split
  · exact Or.inl rfl
  · split
    · exact Or.inl rfl
    · rename_i res hres
      split
      · exact Or.inl rfl
      · rename_i hb
        refine Or.inr ⟨res, rfl, by omega, hres, ?_⟩
        simp at hb
        simp [hb.2]

theorem getArgStr_cases (argCount : Nat) (args : List String) (p : Nat) :
    getArgStr argCount args p = .exit 255 ∨
      ∃ s, getArgStr argCount args p = .ok (s, p + 1) ∧ p < argCount ∧
        args[p]? = some s := by
  unfold getArgStr
  rcases getArg_cases argCount args p with h | ⟨s, h, h1, h2, -⟩
  · rw [h]; exact Or.inl rfl
  · rw [h]
    by_cases ht : isArgParam s = true
    · simp [ht]
    · simp [ht]; exact ⟨h1, h2⟩

theorem getArgInt_cases {R F : Type} (env : Env R F) (argCount : Nat)
    (args : List String) (p : Nat) :
    getArgInt env argCount args p = .exit 255 ∨
      ∃ s w, getArgInt env argCount args p = .ok (w, p + 1) ∧
        args[p]? = some s ∧ env.scanInt s = some w := by
  unfold getArgInt
  rcases getArgStr_cases argCount args p with h | ⟨s, h, -, h2⟩
  · rw [h]; exact Or.inl rfl
  · simp only [h]
    cases hs : env.scanInt s with
    | none => exact Or.inl rfl
    | some w => exact Or.inr ⟨s, w, rfl, h2, hs⟩

theorem getArgReal_cases {R F : Type} (env : Env R F) (argCount : Nat)
    (args : List String) (p : Nat) :
    getArgReal env argCount args p = .exit 255 ∨
      ∃ s w, getArgReal env argCount args p = .ok (w, p + 1) ∧
        args[p]? = some s ∧ env.scanReal s = some w := by
  unfold getArgReal
  rcases getArgStr_cases argCount args p with h | ⟨s, h, -, h2⟩
  · rw [h]; exact Or.inl rfl
  · simp only [h]
    cases hs : env.scanReal s with
    | none => exact Or.inl rfl
    | some w => exact Or.inr ⟨s, w, rfl, h2, hs⟩

theorem checkArgCount_cases (argCount p more : Nat) :
    checkArgCount argCount p more = .exit 255 ∨ checkArgCount argCount p more = .ok () := by
  unfold checkArgCount
  split
  · exact Or.inl rfl
  · exact Or.inr rfl

/-- With enough fuel the point loop either ends the program with status 255
or returns, and the cursor never moves back. -/
theorem getArgPointsLoop_cases {R F : Type} (env : Env R F) (argCount : Nat)
    (args : List String) :
    ∀ (fuel : Nat) (arg : String) (p : Nat) (list : TPoints F),
      p ≤ argCount + 1 → argCount + 2 ≤ fuel + p →
      getArgPointsLoop env argCount args fuel arg p list = .exit 255 ∨
        ∃ q l, getArgPointsLoop env argCount args fuel arg p list = .ok (q, l) ∧ p ≤ q := by
  intro fuel
  induction fuel with
  | zero => intro arg p list h1 h2; omega
  | succ f ih =>
    intro arg p list h1 h2
    rw [getArgPointsLoop]
    by_cases hm : morePoints argCount arg p = true
    · have hp : p < argCount := by
        simp [morePoints] at hm
        exact hm.2
      simp only [hm, if_true]
      cases env.scanFloat arg with
      | none => exact Or.inl rfl
      | some x =>
        rcases getArg_cases argCount args p with h | ⟨s, h, -, -, -⟩
        · left; simp only [h]
        · simp only [h]
          cases env.scanFloat s with
          | none => exact Or.inl rfl
          | some y =>
            simp only []
            by_cases hlt : p + 1 < argCount
            · rw [if_pos hlt]
              rcases getArg_cases argCount args (p + 1) with h' | ⟨s', h', -, -, -⟩
              · left; simp only [h']
              · simp only [h']
                rcases ih s' (p + 1 + 1) (list ++ [TPoint.mk x y]) (by omega) (by omega)
                  with h3 | ⟨q, l, h3, h4⟩
                · exact Or.inl h3
                · exact Or.inr ⟨q, l, h3, by omega⟩
            · rw [if_neg hlt]
              rcases ih s (p + 1 + 1) (list ++ [TPoint.mk x y]) (by omega) (by omega)
                with h3 | ⟨q, l, h3, h4⟩
              · exact Or.inl h3
              · exact Or.inr ⟨q, l, h3, by omega⟩
    · simp only [hm]
      exact Or.inr ⟨p, list, rfl, le_refl p⟩

theorem getArgPoints_cases {R F : Type} (env : Env R F) (argCount : Nat)
    (args : List String) (p : Nat) (list : TPoints F) :
    getArgPoints env argCount args p list = .exit 255 ∨
      ∃ q l, getArgPoints env argCount args p list = .ok (q, l) ∧ p ≤ q := by
  unfold getArgPoints
  rcases getArg_cases argCount args p with h | ⟨s, h, hp, -, -⟩
  · rw [h]; exact Or.inl rfl
  · rw [h]
    rcases getArgPointsLoop_cases env argCount args (argCount + 1) s (p + 1) list
      (by omega) (by omega) with h3 | ⟨q, l, h3, h4⟩
    · left; simp only [h3]
    · simp only [h3]
      refine Or.inr ⟨_, l, rfl, ?_⟩
      split <;> omega

/-! ## The parser loop -/

theorem isSizeTag_of_other (arg : String)
    (h : arg = "-B" ∨ arg = "--bbox" ∨ arg = "-I" ∨ arg = "--incoming-image" ∨
      arg = "-R" ∨ arg = "--rectified-image") : isSizeTag arg = false := by
  rcases h with rfl | rfl | rfl | rfl | rfl | rfl <;> decide

/-- One pass of the loop of `readCli`: it returns with the cursor moved
forward and the image size treated as `SizeStep` says, or ends the program
with status 255, or with status 1 on a help or version option. -/
theorem readCliBody_cases {R F : Type} (env : Env R F) (argc : Nat)
    (argv : List String) (p : Nat) (v : CliVars R F) :
    (∃ q w, readCliBody env argc argv p v = .ok (q, w) ∧ p < q ∧
      SizeStep env argv p v w) ∨
    readCliBody env argc argv p v = .exit 255 ∨
    (readCliBody env argc argv p v = .exit 1 ∧ p ≠ 0 ∧
      isInfoTag (argv.getD p "") = true) := by
  obtain ⟨r, hr⟩ : ∃ r, readCliBody env argc argv p v = r := ⟨_, rfl⟩
  rw [hr]
  unfold readCliBody at hr
  simp only [] at hr
  by_cases h0 : p = 0
  · subst h0
    simp at hr
    subst hr
    exact Or.inl ⟨1, v, rfl, by omega, Or.inr ⟨Or.inl rfl, rfl, rfl⟩⟩
  · have h1 : (p + 1 == 1) = false := by simp [h0]
    simp only [h1] at hr
    unfold SizeStep
    generalize argv.getD p "" = arg at hr ⊢
    by_cases hB : (arg == "-B" || arg == "--bbox") = true
    · rw [if_pos hB] at hr
      have hs : isSizeTag arg = false := by
        simp at hB
        rcases hB with h | h <;> simp [h, isSizeTag_of_other]
      rcases checkArgCount_cases argc (p + 1) 4 with hc | hc
      · simp [hc] at hr
        subst hr; simp
      · rcases getArgReal_cases env argc argv (p + 1) with h | ⟨s, w, h, -, -⟩
        · simp [hc, h] at hr
          subst hr; simp
        · rcases getArgReal_cases env argc argv (p + 1 + 1) with h2 | ⟨s2, w2, h2, -, -⟩
          · simp [hc, h, h2] at hr
            subst hr; simp
          · rcases getArgReal_cases env argc argv (p + 1 + 1 + 1) with h3 | ⟨s3, w3, h3, -, -⟩
            · simp [hc, h, h2, h3] at hr
              subst hr; simp
            · rcases getArgReal_cases env argc argv (p + 1 + 1 + 1 + 1)
                with h4 | ⟨s4, w4, h4, -, -⟩
              · simp [hc, h, h2, h3, h4] at hr
                subst hr; simp
              · simp [hc, h, h2, h3, h4] at hr
                subst hr
                exact Or.inl ⟨_, _, rfl, by omega, Or.inr ⟨Or.inr hs, rfl, rfl⟩⟩
    rw [if_neg hB] at hr
    by_cases hI : (arg == "-I" || arg == "--incoming-image") = true
    · rw [if_pos hI] at hr
      have hs : isSizeTag arg = false := by
        simp at hI
        rcases hI with h | h <;> simp [h, isSizeTag_of_other]
      rcases getArgStr_cases argc argv (p + 1) with h | ⟨s, h, -, -⟩
      · simp [h] at hr
        subst hr; simp
      · simp [h] at hr
        subst hr
        exact Or.inl ⟨_, _, rfl, by omega, Or.inr ⟨Or.inr hs, rfl, rfl⟩⟩
    rw [if_neg hI] at hr
    by_cases hR : (arg == "-R" || arg == "--rectified-image") = true
    · rw [if_pos hR] at hr
      have hs : isSizeTag arg = false := by
        simp at hR
        rcases hR with h | h <;> simp [h, isSizeTag_of_other]
      rcases getArgStr_cases argc argv (p + 1) with h | ⟨s, h, -, -⟩
      · simp [h] at hr
        subst hr; simp
      · simp [h] at hr
        subst hr
        exact Or.inl ⟨_, _, rfl, by omega, Or.inr ⟨Or.inr hs, rfl, rfl⟩⟩
    rw [if_neg hR] at hr
    by_cases hS : (arg == "-S" || arg == "--image-size") = true
    · rw [if_pos hS] at hr
      rcases checkArgCount_cases argc (p + 1) 2 with hc | hc
      · simp [hc] at hr
        subst hr; simp
      · rcases getArgInt_cases env argc argv (p + 1) with h | ⟨s, w, h, hs1, hw1⟩
        · simp [hc, h] at hr
          subst hr; simp
        · rcases getArgInt_cases env argc argv (p + 1 + 1) with h2 | ⟨s2, w2, h2, hs2, hw2⟩
          · simp [hc, h, h2] at hr
            subst hr; simp
          · simp [hc, h, h2] at hr
            subst hr
            exact Or.inl ⟨_, _, rfl, by omega,
              Or.inl ⟨h0, hS, s, s2, hs1, hs2, hw1, hw2⟩⟩
    rw [if_neg hS] at hr
    have hs : isSizeTag arg = false := by
      simpa [isSizeTag] using hS
    by_cases hO : (arg == "-O" || arg == "--original-icps") = true
    · rw [if_pos hO] at hr
      rcases getArgPoints_cases env argc argv (p + 1) v.IcpsOriginal with h | ⟨q, l, h, hq⟩
      · simp [h] at hr
        subst hr; simp
      · simp [h] at hr
        subst hr
        exact Or.inl ⟨_, _, rfl, by omega, Or.inr ⟨Or.inr hs, rfl, rfl⟩⟩
    rw [if_neg hO] at hr
    by_cases hM : (arg == "-M" || arg == "--mapped-icps") = true
    · rw [if_pos hM] at hr
      rcases getArgPoints_cases env argc argv (p + 1) v.IcpsMapped with h | ⟨q, l, h, hq⟩
      · simp [h] at hr
        subst hr; simp
      · simp [h] at hr
        subst hr
        exact Or.inl ⟨_, _, rfl, by omega, Or.inr ⟨Or.inr hs, rfl, rfl⟩⟩
    rw [if_neg hM] at hr
    by_cases hH : (arg == "-h" || arg == "--help") = true
    · rw [if_pos hH] at hr
      subst hr
      refine Or.inr (Or.inr ⟨rfl, h0, ?_⟩)
      simp at hH
      rcases hH with h | h <;> simp [h, isInfoTag]
    rw [if_neg hH] at hr
    by_cases hV : (arg == "-v" || arg == "--version") = true
    · rw [if_pos hV] at hr
      subst hr
      refine Or.inr (Or.inr ⟨rfl, h0, ?_⟩)
      simp at hV
      rcases hV with h | h <;> simp [h, isInfoTag]
    rw [if_neg hV] at hr
    subst hr
    exact Or.inr (Or.inl rfl)

theorem optionPositions_succ {R F : Type} (env : Env R F) (argc : Nat)
    (argv : List String) (fuel p : Nat) (v : CliVars R F) (q : Nat) (w : CliVars R F)
    (hp : p < argc) (hb : readCliBody env argc argv p v = .ok (q, w)) :
    optionPositions env argc argv (fuel + 1) p v
      = (if p = 0 then [] else [p]) ++ optionPositions env argc argv fuel q w := by
  rw [optionPositions, if_pos hp, hb]

theorem optionPositions_ge {R F : Type} (env : Env R F) (argc : Nat)
    (argv : List String) :
    ∀ (fuel p : Nat) (v : CliVars R F), ∀ q ∈ optionPositions env argc argv fuel p v,
      p ≤ q := by
  intro fuel
  induction fuel with
  | zero => intro p v q hq; simp [optionPositions] at hq
  | succ f ih =>
    intro p v q hq
    by_cases hp : p < argc
    · rcases readCliBody_cases env argc argv p v with ⟨q1, w, hb, hlt, -⟩ | hb | ⟨hb, -, -⟩
      · rw [optionPositions_succ env argc argv f p v q1 w hp hb] at hq
        rcases List.mem_append.mp hq with h | h
        · split at h
          · simp at h
          · simp at h; omega
        · have := ih q1 w q h
          omega
      · rw [optionPositions, if_pos hp, hb] at hq
        simp at hq
        omega
      · rw [optionPositions, if_pos hp, hb] at hq
        simp at hq
        omega
    · rw [optionPositions, if_neg hp] at hq
      simp at hq

/-- The loop of `readCli` started with enough fuel ends: it returns, or the
program exits with status 255, or with status 1 on a help or version option
the loop dispatched on. -/
theorem readCliLoop_total {R F : Type} (env : Env R F) (argc : Nat)
    (argv : List String) :
    ∀ (fuel p : Nat) (v : CliVars R F), 1 ≤ fuel → argc + 1 ≤ fuel + p →
      (∃ w, readCliLoop env argc argv fuel p v = .ok w) ∨
      readCliLoop env argc argv fuel p v = .exit 255 ∨
      (readCliLoop env argc argv fuel p v = .exit 1 ∧
        ∃ q ∈ optionPositions env argc argv fuel p v,
          isInfoTag (argv.getD q "") = true) := by
  intro fuel
  induction fuel with
  | zero => intro p v h1 _; omega
  | succ f ih =>
    intro p v _ h2
    by_cases hp : p < argc
    · rcases readCliBody_cases env argc argv p v with ⟨q1, w, hb, hlt, -⟩ | hb | ⟨hb, h0, hi⟩
      · rw [readCliLoop, if_pos hp, optionPositions_succ env argc argv f p v q1 w hp hb]
        simp only [hb]
        rcases ih q1 w (by omega) (by omega) with h | h | ⟨h, q, hq, hqi⟩
        · exact Or.inl h
        · exact Or.inr (Or.inl h)
        · exact Or.inr (Or.inr ⟨h, q, List.mem_append.mpr (Or.inr hq), hqi⟩)
      · right; left
        rw [readCliLoop, if_pos hp]
        simp only [hb]
      · right; right
        rw [readCliLoop, if_pos hp, optionPositions, if_pos hp]
        simp only [hb]
        exact ⟨trivial, p, by simp [h0], hi⟩
    · rw [readCliLoop, if_neg hp]
      exact Or.inl ⟨v, rfl⟩

theorem readCliLoop_lists {R F : Type} (env : Env R F) (argc : Nat)
    (argv : List String) :
    ∀ (fuel p : Nat) (v w : CliVars R F), readCliLoop env argc argv fuel p v = .ok w →
      listsRead env argc argv fuel p v = (w.IcpsOriginal, w.IcpsMapped) := by
  intro fuel
  induction fuel with
  | zero => intro p v w h; simp [readCliLoop] at h
  | succ f ih =>
    intro p v w h
    by_cases hp : p < argc
    · rw [readCliLoop, if_pos hp] at h
      rw [listsRead, if_pos hp]
      rcases readCliBody_cases env argc argv p v with ⟨q1, w1, hb, -, -⟩ | hb | ⟨hb, -, -⟩
      · simp only [hb] at h ⊢
        exact ih q1 w1 w h
      · simp [hb] at h
      · simp [hb] at h
    · rw [readCliLoop, if_neg hp] at h
      rw [listsRead, if_neg hp]
      cases h
      rfl

/-- The image size the loop of `readCli` returns with: the size it started
with when it dispatched on no image-size option, else the conversions of the
two arguments after the last image-size option it dispatched on. -/
theorem readCliLoop_size {R F : Type} (env : Env R F) (argc : Nat)
    (argv : List String) :
    ∀ (fuel p : Nat) (v w : CliVars R F), readCliLoop env argc argv fuel p v = .ok w →
      ((∀ q ∈ optionPositions env argc argv fuel p v, isSizeTag (argv.getD q "") = false) ∧
        w.ImageWidth = v.ImageWidth ∧ w.ImageHeight = v.ImageHeight) ∨
      (∃ q ∈ optionPositions env argc argv fuel p v,
        isSizeTag (argv.getD q "") = true ∧
        (∀ r ∈ optionPositions env argc argv fuel p v, q < r →
          isSizeTag (argv.getD r "") = false) ∧
        ∃ s1 s2, argv[q + 1]? = some s1 ∧ argv[q + 2]? = some s2 ∧
          env.scanInt s1 = some w.ImageWidth ∧ env.scanInt s2 = some w.ImageHeight) := by
  intro fuel
  induction fuel with
  | zero => intro p v w h; simp [readCliLoop] at h
  | succ f ih =>
    intro p v w h
    by_cases hp : p < argc
    · rw [readCliLoop, if_pos hp] at h
      rcases readCliBody_cases env argc argv p v with ⟨q1, w1, hb, hlt, hstep⟩ | hb | ⟨hb, -, -⟩
      · simp only [hb] at h
        rw [optionPositions_succ env argc argv f p v q1 w1 hp hb]
        have hge := optionPositions_ge env argc argv f q1 w1
        rcases ih q1 w1 w h with ⟨hno, hW, hH⟩ | ⟨q, hq, hqs, hlast, hscan⟩
        · rcases hstep with ⟨h0, hs, s1, s2, e1, e2, c1, c2⟩ | ⟨hs, eW, eH⟩
          · refine Or.inr ⟨p, ?_, hs, ?_, s1, s2, e1, e2, ?_, ?_⟩
            · simp [h0]
            · intro r hr _
              rcases List.mem_append.mp hr with h' | h'
              · split at h'
                · simp at h'
                · simp at h'; omega
              · exact hno r h'
            · rw [hW]; exact c1
            · rw [hH]; exact c2
          · refine Or.inl ⟨?_, by rw [hW, eW], by rw [hH, eH]⟩
            intro r hr
            rcases List.mem_append.mp hr with h' | h'
            · split at h'
              · simp at h'
              · rename_i h0
                simp at h'
                subst h'
                rcases hs with hs | hs
                · exact absurd hs h0
                · exact hs
            · exact hno r h'
        · refine Or.inr ⟨q, List.mem_append.mpr (Or.inr hq), hqs, ?_, hscan⟩
          intro r hr hlt2
          rcases List.mem_append.mp hr with h' | h'
          · have := hge q hq
            split at h'
            · simp at h'
            · simp at h'; omega
          · exact hlast r h' hlt2
      · simp [hb] at h
      · simp [hb] at h
    · rw [readCliLoop, if_neg hp] at h
      cases h
      refine Or.inl ⟨?_, rfl, rfl⟩
      intro q hq
      rw [optionPositions, if_neg hp] at hq
      simp at hq

/-! ## The assertions of `readCli` -/

theorem checkParamInit_cases (b : Bool) :
    (checkParamInit b = .ok () ∧ b = true) ∨ (checkParamInit b = .exit 255 ∧ b = false) := by
  cases b
  · exact Or.inr ⟨rfl, rfl⟩
  · exact Or.inl ⟨rfl, rfl⟩

theorem readCliChecks_cases {R F : Type} (env : Env R F) (v : CliVars R F) :
    readCliChecks env v = .exit 255 ∨
      (readCliChecks env v = .ok () ∧ 0 < v.ImageWidth ∧ 0 < v.ImageHeight ∧
        3 < v.IcpsMapped.length ∧ 3 < v.IcpsOriginal.length ∧
        v.IcpsMapped.length = v.IcpsOriginal.length) := by
  unfold readCliChecks
  rcases checkParamInit_cases (v.inImage != "") with ⟨h1, -⟩ | ⟨h1, -⟩
  · rcases checkParamInit_cases (v.outImage != "") with ⟨h2, -⟩ | ⟨h2, -⟩
    · rcases checkParamInit_cases (!(env.isZero v.ImageBBox.xmin || env.isZero v.ImageBBox.xmax
        || env.isZero v.ImageBBox.ymin || env.isZero v.ImageBBox.ymax)) with ⟨h3, -⟩ | ⟨h3, -⟩
      · rcases checkParamInit_cases (decide (v.ImageWidth > 0) && decide (v.ImageHeight > 0))
          with ⟨h4, e4⟩ | ⟨h4, -⟩
        · rcases checkParamInit_cases (decide (v.IcpsMapped.length > 3)) with ⟨h5, e5⟩ | ⟨h5, -⟩
          · rcases checkParamInit_cases (decide (v.IcpsOriginal.length > 3))
              with ⟨h6, e6⟩ | ⟨h6, -⟩
            · simp only [h1, h2, h3, h4, h5, h6, Outcome.ok_bind]
              by_cases hne : (v.IcpsMapped.length != v.IcpsOriginal.length) = true
              · rw [if_pos hne]; exact Or.inl rfl
              · rw [if_neg hne]
                simp at e4 e5 e6 hne
                unfold checkPathExists checkFileExists
                cases env.isDirectory (env.parentPath v.outImage) with
                | false => exact Or.inl rfl
                | true =>
                  cases env.fileExists v.inImage with
                  | false => exact Or.inl rfl
                  | true => exact Or.inr ⟨rfl, e4.1, e4.2, e5, e6, hne⟩
            · simp only [h1, h2, h3, h4, h5, h6, Outcome.ok_bind, Outcome.exit_bind]
              exact Or.inl trivial
          · simp only [h1, h2, h3, h4, h5, Outcome.ok_bind, Outcome.exit_bind]
            exact Or.inl trivial
        · simp only [h1, h2, h3, h4, Outcome.ok_bind, Outcome.exit_bind]
          exact Or.inl trivial
      · simp only [h1, h2, h3, Outcome.ok_bind, Outcome.exit_bind]
        exact Or.inl trivial
    · simp only [h1, h2, Outcome.ok_bind, Outcome.exit_bind]
      exact Or.inl trivial
  · simp only [h1, Outcome.exit_bind]
    exact Or.inl trivial

/-! ## `readCli` and `main` -/

/-- Every run of `readCli` ends: it returns after its loop returned and its
assertions passed, or the program exits with status 255, or with status 1 on
a help or version option the loop dispatched on. -/
theorem readCli_cases {R F : Type} (env : Env R F) (argc : Nat) (argv : List String)
    (v : CliVars R F) :
    (∃ w, readCli env argc argv v = .ok w ∧
      readCliLoop env argc argv (argc + 1) 0 v = .ok w ∧
      0 < w.ImageWidth ∧ 0 < w.ImageHeight ∧
      3 < w.IcpsMapped.length ∧ 3 < w.IcpsOriginal.length ∧
      w.IcpsMapped.length = w.IcpsOriginal.length) ∨
    readCli env argc argv v = .exit 255 ∨
    (readCli env argc argv v = .exit 1 ∧
      ∃ q ∈ optionPositions env argc argv (argc + 1) 0 v,
        isInfoTag (argv.getD q "") = true) := by
  unfold readCli
  rcases readCliLoop_total env argc argv (argc + 1) 0 v (by omega) (by omega)
    with ⟨w, h⟩ | h | ⟨h, hq⟩
  · rcases readCliChecks_cases env w with hc | ⟨hc, h1, h2, h3, h4, h5⟩
    · right; left
      simp only [h, hc]
    · left
      refine ⟨w, ?_, h, h1, h2, h3, h4, h5⟩
      simp only [h, hc]
  · right; left
    simp only [h]
  · right; right
    refine ⟨?_, hq⟩
    simp only [h]

theorem main_cases {R F : Type} (env : Env R F) (argv : List String) :
    (∃ w, readCli env argv.length argv (mainInit env) = .ok w ∧
      main env argv = .ok ⟨w.inImage, w.IcpsOriginal, w.IcpsMapped,
        (w.ImageWidth, w.ImageHeight), w.outImage⟩) ∨
    (∃ c, readCli env argv.length argv (mainInit env) = .exit c ∧
      main env argv = .exit c) := by
  unfold main
  rcases readCli_cases env argv.length argv (mainInit env) with ⟨w, h, -⟩ | h | ⟨h, -⟩
  · left; exact ⟨w, h, by simp only [h]⟩
  · right; exact ⟨255, h, by simp only [h]⟩
  · right; exact ⟨1, h, by simp only [h]⟩

theorem mem_of_isSizeTag_getD (argv : List String) (q : Nat)
    (h : isSizeTag (argv.getD q "") = true) : argv.getD q "" ∈ argv := by
  cases hq : argv[q]? with
  | none =>
    rw [List.getD_eq_getElem?_getD, hq] at h
    simp [isSizeTag] at h
  | some a =>
    rw [List.getD_eq_getElem?_getD, hq]
    exact List.getElem?_mem hq

/-- C3, amended: `readCli` returns only with two point lists of at least four
points and of equal length; for a command line whose lists, as read when
parsing stops, have fewer than four points or differ in length, the program
ends inside `readCli`, before any OpenCV call, with exit status 255, or with
exit status 1 when the parser dispatched on a help or version option. -/
theorem readCli_lists_checked {R F : Type} (env : Env R F) (argv : List String) :
    (∀ (argc : Nat) (v w : CliVars R F), readCli env argc argv v = .ok w →
      4 ≤ w.IcpsOriginal.length ∧ 4 ≤ w.IcpsMapped.length ∧
        w.IcpsOriginal.length = w.IcpsMapped.length) ∧
    (((listsRead env argv.length argv (argv.length + 1) 0 (mainInit env)).1.length < 4 ∨
      (listsRead env argv.length argv (argv.length + 1) 0 (mainInit env)).2.length < 4 ∨
      (listsRead env argv.length argv (argv.length + 1) 0 (mainInit env)).1.length ≠
        (listsRead env argv.length argv (argv.length + 1) 0 (mainInit env)).2.length) →
      main env argv = .exit 255 ∨
      (main env argv = .exit 1 ∧
        ∃ q ∈ optionPositions env argv.length argv (argv.length + 1) 0 (mainInit env),
          isInfoTag (argv.getD q "") = true)) := by
  constructor
  · intro argc v w h
    rcases readCli_cases env argc argv v with ⟨w2, h2, -, -, -, h3, h4, h5⟩ | h2 | ⟨h2, -⟩
    · rw [h] at h2
      cases h2
      omega
    · rw [h] at h2; cases h2
    · rw [h] at h2; cases h2
  · intro hbad
    unfold main
    rcases readCli_cases env argv.length argv (mainInit env)
      with ⟨w, -, hl, -, -, h3, h4, h5⟩ | h | ⟨h, hq⟩
    · rw [readCliLoop_lists env argv.length argv _ _ _ _ hl] at hbad
      simp only at hbad
      omega
    · left; simp only [h]
    · right; exact ⟨by simp only [h], hq⟩

/-- C3 as amended, on command lines that pass every other assertion of
`readCli`: one with three original and three mapped points, one with four
original and five mapped points, both ended with status 255 by the list
assertions, and one with four and four, which `readCli` returns from. -/
theorem readCli_lists_checked_witness :
    main decEnv
        ["rsmc-ortho", "-B", "1", "2", "3", "4", "-I", "/data/in.tif", "-R",
          "/data/out.tif", "-S", "10", "20", "-O", "0", "0", "1", "0", "1", "1",
          "-M", "0", "0", "2", "0", "2", "2"] = .exit 255 ∧
    main decEnv
        ["rsmc-ortho", "-B", "1", "2", "3", "4", "-I", "/data/in.tif", "-R",
          "/data/out.tif", "-S", "10", "20", "-O", "0", "0", "1", "0", "1", "1", "0", "1",
          "-M", "0", "0", "2", "0", "2", "2", "0", "2", "3", "3"] = .exit 255 ∧
    (4 ≤ [TPoint.mk (0 : Int) 0, TPoint.mk 1 0, TPoint.mk 1 1, TPoint.mk 0 1].length ∧
      4 ≤ [TPoint.mk (0 : Int) 0, TPoint.mk 2 0, TPoint.mk 2 2, TPoint.mk 0 2].length ∧
      [TPoint.mk (0 : Int) 0, TPoint.mk 1 0, TPoint.mk 1 1, TPoint.mk 0 1].length =
        [TPoint.mk (0 : Int) 0, TPoint.mk 2 0, TPoint.mk 2 2, TPoint.mk 0 2].length) :=
  ⟨((readCli_lists_checked decEnv
        ["rsmc-ortho", "-B", "1", "2", "3", "4", "-I", "/data/in.tif", "-R",
          "/data/out.tif", "-S", "10", "20", "-O", "0", "0", "1", "0", "1", "1",
          "-M", "0", "0", "2", "0", "2", "2"]).2 (by decide)).elim id
      (fun h => absurd h.1 (by decide)),
   ((readCli_lists_checked decEnv
        ["rsmc-ortho", "-B", "1", "2", "3", "4", "-I", "/data/in.tif", "-R",
          "/data/out.tif", "-S", "10", "20", "-O", "0", "0", "1", "0", "1", "1", "0", "1",
          "-M", "0", "0", "2", "0", "2", "2", "0", "2", "3", "3"]).2 (by decide)).elim id
      (fun h => absurd h.1 (by decide)),
   (readCli_lists_checked decEnv
        ["rsmc-ortho", "-B", "1", "2", "3", "4", "-I", "/data/in.tif", "-R",
          "/data/out.tif", "-S", "10", "20", "-O", "0", "0", "1", "0", "1", "1", "0", "1",
          "-M", "0", "0", "2", "0", "2", "2", "0", "2"]).1 31 (mainInit decEnv)
      { inImage := "/data/in.tif"
        outImage := "/data/out.tif"
        ImageBBox := { xmin := 1, xmax := 2, ymin := 3, ymax := 4 }
        ImageWidth := 10
        ImageHeight := 20
        IcpsOriginal := [TPoint.mk 0 0, TPoint.mk 1 0, TPoint.mk 1 1, TPoint.mk 0 1]
        IcpsMapped := [TPoint.mk 0 0, TPoint.mk 2 0, TPoint.mk 2 2, TPoint.mk 0 2] }
      (by decide)⟩

/-- C3 as stated fails on the help option: the command line holds no point at
all, and the program ends with exit status 1, not 255. -/
theorem readCli_help_status :
    (listsRead decEnv 2 ["rsmc-ortho", "--help"] 3 0 (mainInit decEnv)).1.length < 4 ∧
    main decEnv ["rsmc-ortho", "--help"] = .exit 1 ∧
    main decEnv ["rsmc-ortho", "--help"] ≠ .exit 255 := by
  decide

/-- The size in an accepted job comes from the last image-size option the
parser dispatched on. -/
theorem main_dsize_of_ok {R F : Type} (env : Env R F) (argv : List String)
    (job : Rectify F) (hmain : main env argv = .ok job) :
    ∃ p ∈ optionPositions env argv.length argv (argv.length + 1) 0 (mainInit env),
      isSizeTag (argv.getD p "") = true ∧
      (∀ q ∈ optionPositions env argv.length argv (argv.length + 1) 0 (mainInit env),
        p < q → isSizeTag (argv.getD q "") = false) ∧
      ∃ sW sH, argv[p + 1]? = some sW ∧ argv[p + 2]? = some sH ∧
        env.scanInt sW = some job.dsize.1 ∧ env.scanInt sH = some job.dsize.2 := by
  rcases main_cases env argv with ⟨w, hr, hm⟩ | ⟨c, -, hm⟩
  · rw [hmain] at hm
    cases hm
    rcases readCli_cases env argv.length argv (mainInit env)
      with ⟨w2, h2, hl, hW, hH, -⟩ | h2 | ⟨h2, -⟩
    · rw [hr] at h2
      cases h2
      rcases readCliLoop_size env argv.length argv _ _ _ _ hl
        with ⟨-, eW, eH⟩ | ⟨q, hq, hs, hlast, hscan⟩
      · have : w.ImageWidth = -1 := eW
        omega
      · exact ⟨q, hq, hs, hlast, hscan⟩
    · rw [hr] at h2; cases h2
    · rw [hr] at h2; cases h2
  · rw [hmain] at hm
    cases hm

/-- C4: when the loop of `readCli` ends with a width or a height that is not
positive, `readCli` ends the program with status 255; a command line without
any image-size option never gets past `readCli`; `main` reaches its OpenCV
calls only with a positive width and a positive height; and every other run
of `main` ends in `exit` with status 255 or 1. -/
theorem readCli_size_checked {R F : Type} (env : Env R F) (argv : List String) :
    (∀ (argc : Nat) (v w : CliVars R F),
      readCliLoop env argc argv (argc + 1) 0 v = .ok w →
      (w.ImageWidth ≤ 0 ∨ w.ImageHeight ≤ 0) →
      readCli env argc argv v = .exit 255) ∧
    ((∀ a ∈ argv, isSizeTag a = false) →
      main env argv = .exit 255 ∨ main env argv = .exit 1) ∧
    (∀ job, main env argv = .ok job → 0 < job.dsize.1 ∧ 0 < job.dsize.2) ∧
    ((∃ job, main env argv = .ok job ∧ 0 < job.dsize.1 ∧ 0 < job.dsize.2) ∨
      main env argv = .exit 255 ∨ main env argv = .exit 1) := by
  have hpos : ∀ job, main env argv = .ok job → 0 < job.dsize.1 ∧ 0 < job.dsize.2 := by
    intro job hmain
    rcases main_cases env argv with ⟨w, hr, hm⟩ | ⟨c, -, hm⟩
    · rw [hmain] at hm
      cases hm
      rcases readCli_cases env argv.length argv (mainInit env)
        with ⟨w2, h2, -, hW, hH, -⟩ | h2 | ⟨h2, -⟩
      · rw [hr] at h2
        cases h2
        exact ⟨hW, hH⟩
      · rw [hr] at h2; cases h2
      · rw [hr] at h2; cases h2
    · rw [hmain] at hm
      cases hm
  have htotal : (∃ job, main env argv = .ok job ∧ 0 < job.dsize.1 ∧ 0 < job.dsize.2) ∨
      main env argv = .exit 255 ∨ main env argv = .exit 1 := by
    rcases main_cases env argv with ⟨w, -, hm⟩ | ⟨c, hr, hm⟩
    · exact Or.inl ⟨_, hm, hpos _ hm⟩
    · rcases readCli_cases env argv.length argv (mainInit env) with ⟨w2, h2, -⟩ | h2 | ⟨h2, -⟩
      · rw [hr] at h2; cases h2
      · rw [hr] at h2; cases h2
        exact Or.inr (Or.inl hm)
      · rw [hr] at h2; cases h2
        exact Or.inr (Or.inr hm)
  refine ⟨?_, ?_, hpos, htotal⟩
  · intro argc v w hl hbad
    unfold readCli
    simp only [hl]
    rcases readCliChecks_cases env w with hc | ⟨-, hW, hH, -⟩
    · simp only [hc]
    · omega
  · intro hno
    rcases htotal with ⟨job, hm, -⟩ | h | h
    · obtain ⟨p, -, hs, -⟩ := main_dsize_of_ok env argv job hm
      have hmem := mem_of_isSizeTag_getD argv p hs
      rw [hno _ hmem] at hs
      cases hs
    · exact Or.inl h
    · exact Or.inr h

/-- C4, on command lines that pass every other assertion of `readCli`: one
with `-S 0 20`, ended with status 255 by the size assertion, one without the
image-size option, ended the same way, and one with `-S 10 20`, which reaches
the OpenCV calls with a positive size. -/
theorem readCli_size_checked_witness :
    readCli decEnv 31
        ["rsmc-ortho", "-B", "1", "2", "3", "4", "-I", "/data/in.tif", "-R",
          "/data/out.tif", "-S", "0", "20", "-O", "0", "0", "1", "0", "1", "1", "0", "1",
          "-M", "0", "0", "2", "0", "2", "2", "0", "2"] (mainInit decEnv) = .exit 255 ∧
    main decEnv
        ["rsmc-ortho", "-B", "1", "2", "3", "4", "-I", "/data/in.tif", "-R",
          "/data/out.tif", "-O", "0", "0", "1", "0", "1", "1", "0", "1",
          "-M", "0", "0", "2", "0", "2", "2", "0", "2"] = .exit 255 ∧
    ((0 : Int) < 10 ∧ (0 : Int) < 20) :=
  ⟨(readCli_size_checked decEnv
        ["rsmc-ortho", "-B", "1", "2", "3", "4", "-I", "/data/in.tif", "-R",
          "/data/out.tif", "-S", "0", "20", "-O", "0", "0", "1", "0", "1", "1", "0", "1",
          "-M", "0", "0", "2", "0", "2", "2", "0", "2"]).1 31 (mainInit decEnv)
      { inImage := "/data/in.tif"
        outImage := "/data/out.tif"
        ImageBBox := { xmin := 1, xmax := 2, ymin := 3, ymax := 4 }
        ImageWidth := 0
        ImageHeight := 20
        IcpsOriginal := [TPoint.mk 0 0, TPoint.mk 1 0, TPoint.mk 1 1, TPoint.mk 0 1]
        IcpsMapped := [TPoint.mk 0 0, TPoint.mk 2 0, TPoint.mk 2 2, TPoint.mk 0 2] }
      (by decide) (Or.inl (by decide)),
   ((readCli_size_checked decEnv
        ["rsmc-ortho", "-B", "1", "2", "3", "4", "-I", "/data/in.tif", "-R",
          "/data/out.tif", "-O", "0", "0", "1", "0", "1", "1", "0", "1",
          "-M", "0", "0", "2", "0", "2", "2", "0", "2"]).2.1 (by decide)).elim id
      (fun h => absurd h (by decide)),
   (readCli_size_checked decEnv
        ["rsmc-ortho", "-B", "1", "2", "3", "4", "-I", "/data/in.tif", "-R",
          "/data/out.tif", "-S", "10", "20", "-O", "0", "0", "1", "0", "1", "1", "0", "1",
          "-M", "0", "0", "2", "0", "2", "2", "0", "2"]).2.2.1
      ⟨"/data/in.tif",
        [TPoint.mk 0 0, TPoint.mk 1 0, TPoint.mk 1 1, TPoint.mk 0 1],
        [TPoint.mk 0 0, TPoint.mk 2 0, TPoint.mk 2 2, TPoint.mk 0 2],
        (10, 20), "/data/out.tif"⟩
      (by decide)⟩

/-- C7, the code at `-B 1 2 3 4`: the second value lands in `xmax` and the
third in `ymin`, whereas the help text announces the order
`<MIN.X> <MIN.Y> <MAX.X> <MAX.Y>`. -/
theorem readCli_bbox_order :
    readCli decEnv 31
        ["rsmc-ortho", "-B", "1", "2", "3", "4", "-I", "/data/in.tif", "-R",
          "/data/out.tif", "-S", "10", "20", "-O", "0", "0", "1", "0", "1", "1", "0", "1",
          "-M", "0", "0", "2", "0", "2", "2", "0", "2"] (mainInit decEnv)
      = .ok
        { inImage := "/data/in.tif"
          outImage := "/data/out.tif"
          ImageBBox := { xmin := 1, xmax := 2, ymin := 3, ymax := 4 }
          ImageWidth := 10
          ImageHeight := 20
          IcpsOriginal := [TPoint.mk 0 0, TPoint.mk 1 0, TPoint.mk 1 1, TPoint.mk 0 1]
          IcpsMapped := [TPoint.mk 0 0, TPoint.mk 2 0, TPoint.mk 2 2, TPoint.mk 0 2] } := by
  decide

/-! ## Arguments the parser passes over -/

theorem isSizeTag_eq (s : String) (h : isSizeTag s = true) :
    s = "-S" ∨ s = "--image-size" := by
  simpa [isSizeTag] using h

theorem isArgParam_of_isSizeTag (s : String) (h : isSizeTag s = true) :
    isArgParam s = true := by
  rcases isSizeTag_eq s h with rfl | rfl <;> decide

theorem not_sizeTag_at (argv : List String) (q : Nat) (s : String)
    (h1 : argv[q]? = some s) (h2 : isArgParam s = false) :
    isSizeTag (argv.getD q "") = false := by
  rw [List.getD_eq_getElem?_getD, h1]
  cases h : isSizeTag s with
  | false => exact h
  | true =>
    rw [isArgParam_of_isSizeTag s h] at h2
    cases h2

theorem getArgStr_value (argCount : Nat) (args : List String) (p q : Nat) (s : String)
    (h : getArgStr argCount args p = .ok (s, q)) :
    q = p + 1 ∧ args[p]? = some s ∧ isArgParam s = false := by
  unfold getArgStr at h
  rcases getArg_cases argCount args p with h1 | ⟨s1, h1, -, h2, -⟩
  · simp [h1] at h
  · simp only [h1] at h
    by_cases ht : isArgParam s1 = true
    · simp [ht] at h
    · simp [ht] at h
      obtain ⟨rfl, rfl⟩ := h
      exact ⟨rfl, h2, by simpa using ht⟩

theorem getArgInt_value {R F : Type} (env : Env R F) (argCount : Nat)
    (args : List String) (p q : Nat) (w : Int)
    (h : getArgInt env argCount args p = .ok (w, q)) :
    q = p + 1 ∧ ∃ s, args[p]? = some s ∧ isArgParam s = false := by
  unfold getArgInt at h
  cases hs : getArgStr argCount args p with
  | ok a =>
    obtain ⟨s, q1⟩ := a
    obtain ⟨e1, e2, e3⟩ := getArgStr_value argCount args p q1 s hs
    simp only [hs] at h
    cases hc : env.scanInt s with
    | none => simp [hc] at h
    | some x =>
      simp [hc] at h
      exact ⟨by omega, s, e2, e3⟩
  | exit c => simp [hs] at h
  | fuel => simp [hs] at h

theorem getArgReal_value {R F : Type} (env : Env R F) (argCount : Nat)
    (args : List String) (p q : Nat) (w : R)
    (h : getArgReal env argCount args p = .ok (w, q)) :
    q = p + 1 ∧ ∃ s, args[p]? = some s ∧ isArgParam s = false := by
  unfold getArgReal at h
  cases hs : getArgStr argCount args p with
  | ok a =>
    obtain ⟨s, q1⟩ := a
    obtain ⟨e1, e2, e3⟩ := getArgStr_value argCount args p q1 s hs
    simp only [hs] at h
    cases hc : env.scanReal s with
    | none => simp [hc] at h
    | some x =>
      simp [hc] at h
      exact ⟨by omega, s, e2, e3⟩
  | exit c => simp [hs] at h
  | fuel => simp [hs] at h

theorem scanFloat_not_sizeTag {R F : Type} (env : Env R F)
    (hS : env.scanFloat "-S" = none) (hL : env.scanFloat "--image-size" = none)
    (argv : List String) (q : Nat) (s : String) (y : F)
    (h1 : argv[q]? = some s) (h2 : env.scanFloat s = some y) :
    isSizeTag (argv.getD q "") = false := by
  rw [List.getD_eq_getElem?_getD, h1]
  cases h : isSizeTag s with
  | false => exact h
  | true =>
    rcases isSizeTag_eq s h with rfl | rfl
    · rw [hS] at h2; cases h2
    · rw [hL] at h2; cases h2

/-- The point loop, entered with `arg` read from index `pos - 1`, passes over
no image-size tag that has an argument after it: the indices below the cursor
`getArgPoints` returns hold none. -/
theorem getArgPointsLoop_consumed {R F : Type} (env : Env R F)
    (hS : env.scanFloat "-S" = none) (hL : env.scanFloat "--image-size" = none)
    (argc : Nat) (argv : List String) :
    ∀ (fuel : Nat) (arg : String) (pos : Nat) (list : TPoints F) (pos2 : Nat)
      (l2 : TPoints F),
      getArgPointsLoop env argc argv fuel arg pos list = .ok (pos2, l2) →
      argv[pos - 1]? = some arg → 1 ≤ pos →
      ∀ q, pos - 1 ≤ q → q < (if pos2 < argc then pos2 - 1 else pos2) → q + 1 < argc →
        isSizeTag (argv.getD q "") = false := by
  intro fuel
  induction fuel with
  | zero => intro arg pos list pos2 l2 h; simp [getArgPointsLoop] at h
  | succ f ih =>
    intro arg pos list pos2 l2 h harg hpos q hq1 hq2 hq3
    rw [getArgPointsLoop] at h
    by_cases hm : morePoints argc arg pos = true
    · have hm2 : isArgParam arg = false ∧ pos < argc := by
        simpa [morePoints] using hm
      simp only [hm, if_true] at h
      cases hx : env.scanFloat arg with
      | none => simp [hx] at h
      | some x =>
        simp only [hx] at h
        rcases getArg_cases argc argv pos with hg | ⟨s, hg, -, hs, -⟩
        · simp [hg] at h
        · simp only [hg] at h
          cases hy : env.scanFloat s with
          | none => simp [hy] at h
          | some y =>
            simp only [hy] at h
            have h0 : isSizeTag (argv.getD (pos - 1) "") = false :=
              not_sizeTag_at argv (pos - 1) arg harg hm2.1
            have h1 : isSizeTag (argv.getD pos "") = false :=
              scanFloat_not_sizeTag env hS hL argv pos s y hs hy
            by_cases hlt : pos + 1 < argc
            · rw [if_pos hlt] at h
              rcases getArg_cases argc argv (pos + 1) with hg2 | ⟨s2, hg2, -, hs2, -⟩
              · simp [hg2] at h
              · simp only [hg2] at h
                by_cases hq : q = pos - 1
                · rw [hq]; exact h0
                · by_cases hq' : q = pos
                  · rw [hq']; exact h1
                  · exact ih s2 (pos + 1 + 1) _ pos2 l2 h (by simpa using hs2) (by omega)
                      q (by omega) hq2 hq3
            · rw [if_neg hlt] at h
              have hq : q = pos - 1 := by omega
              rw [hq]; exact h0
    · simp only [hm] at h
      simp at h
      obtain ⟨rfl, -⟩ := h
      split at hq2 <;> omega

theorem getArgPoints_consumed {R F : Type} (env : Env R F)
    (hS : env.scanFloat "-S" = none) (hL : env.scanFloat "--image-size" = none)
    (argc : Nat) (argv : List String) (p : Nat) (list : TPoints F) (p2 : Nat)
    (l2 : TPoints F) (h : getArgPoints env argc argv p list = .ok (p2, l2)) :
    ∀ q, p ≤ q → q < p2 → q + 1 < argc → isSizeTag (argv.getD q "") = false := by
  unfold getArgPoints at h
  rcases getArg_cases argc argv p with hg | ⟨s, hg, -, hs, -⟩
  · simp [hg] at h
  · simp only [hg] at h
    cases hl : getArgPointsLoop env argc argv (argc + 1) s (p + 1) list with
    | ok a =>
      obtain ⟨pos2, l3⟩ := a
      simp only [hl] at h
      simp at h
      obtain ⟨h1, -⟩ := h
      intro q hq1 hq2 hq3
      rw [← h1] at hq2
      exact getArgPointsLoop_consumed env hS hL argc argv (argc + 1) s (p + 1) list pos2 l3
        hl (by simpa using hs) (by omega) q (by omega) hq2 hq3
    | exit c => simp [hl] at h
    | fuel => simp [hl] at h

/-- One pass of the loop of `readCli` passes over no image-size tag that has
an argument after it: between the cursor it starts at and the cursor it
returns there is none. -/
theorem readCliBody_consumed {R F : Type} (env : Env R F)
    (hS : env.scanFloat "-S" = none) (hL : env.scanFloat "--image-size" = none)
    (argc : Nat) (argv : List String) (p : Nat) (v : CliVars R F) (p2 : Nat)
    (v2 : CliVars R F) (hb : readCliBody env argc argv p v = .ok (p2, v2)) :
    ∀ q, p < q → q < p2 → q + 1 < argc → isSizeTag (argv.getD q "") = false := by
  unfold readCliBody at hb
  simp only [] at hb
  by_cases h0 : p = 0
  · subst h0
    simp at hb
    intro q h1 h2 _
    omega
  · have h1 : (p + 1 == 1) = false := by simp [h0]
    simp only [h1] at hb
    generalize argv.getD p "" = arg at hb
    by_cases hB : (arg == "-B" || arg == "--bbox") = true
    · rw [if_pos hB] at hb
      rcases checkArgCount_cases argc (p + 1) 4 with hc | hc
      · simp [hc] at hb
      · rcases getArgReal_cases env argc argv (p + 1) with h | ⟨s, w, h, -, -⟩
        · simp [hc, h] at hb
        · rcases getArgReal_cases env argc argv (p + 1 + 1) with h2 | ⟨s2, w2, h2, -, -⟩
          · simp [hc, h, h2] at hb
          · rcases getArgReal_cases env argc argv (p + 1 + 1 + 1) with h3 | ⟨s3, w3, h3, -, -⟩
            · simp [hc, h, h2, h3] at hb
            · rcases getArgReal_cases env argc argv (p + 1 + 1 + 1 + 1)
                with h4 | ⟨s4, w4, h4, -, -⟩
              · simp [hc, h, h2, h3, h4] at hb
              · simp [hc, h, h2, h3, h4] at hb
                obtain ⟨-, t1, a1, b1⟩ := getArgReal_value env argc argv _ _ _ h
                obtain ⟨-, t2, a2, b2⟩ := getArgReal_value env argc argv _ _ _ h2
                obtain ⟨-, t3, a3, b3⟩ := getArgReal_value env argc argv _ _ _ h3
                obtain ⟨-, t4, a4, b4⟩ := getArgReal_value env argc argv _ _ _ h4
                intro q hq1 hq2 _
                have hq : q = p + 1 ∨ q = p + 1 + 1 ∨ q = p + 1 + 1 + 1 ∨
                    q = p + 1 + 1 + 1 + 1 := by omega
                rcases hq with rfl | rfl | rfl | rfl
                · exact not_sizeTag_at argv _ t1 a1 b1
                · exact not_sizeTag_at argv _ t2 a2 b2
                · exact not_sizeTag_at argv _ t3 a3 b3
                · exact not_sizeTag_at argv _ t4 a4 b4
    rw [if_neg hB] at hb
    by_cases hI : (arg == "-I" || arg == "--incoming-image") = true
    · rw [if_pos hI] at hb
      rcases getArgStr_cases argc argv (p + 1) with h | ⟨s, h, -, -⟩
      · simp [h] at hb
      · simp [h] at hb
        obtain ⟨-, a1, b1⟩ := getArgStr_value argc argv _ _ _ h
        intro q hq1 hq2 _
        have hq : q = p + 1 := by omega
        subst hq
        exact not_sizeTag_at argv _ s a1 b1
    rw [if_neg hI] at hb
    by_cases hR : (arg == "-R" || arg == "--rectified-image") = true
    · rw [if_pos hR] at hb
      rcases getArgStr_cases argc argv (p + 1) with h | ⟨s, h, -, -⟩
      · simp [h] at hb
      · simp [h] at hb
        obtain ⟨-, a1, b1⟩ := getArgStr_value argc argv _ _ _ h
        intro q hq1 hq2 _
        have hq : q = p + 1 := by omega
        subst hq
        exact not_sizeTag_at argv _ s a1 b1
    rw [if_neg hR] at hb
    by_cases hSz : (arg == "-S" || arg == "--image-size") = true
    · rw [if_pos hSz] at hb
      rcases checkArgCount_cases argc (p + 1) 2 with hc | hc
      · simp [hc] at hb
      · rcases getArgInt_cases env argc argv (p + 1) with h | ⟨s, w, h, -, -⟩
        · simp [hc, h] at hb
        · rcases getArgInt_cases env argc argv (p + 1 + 1) with h2 | ⟨s2, w2, h2, -, -⟩
          · simp [hc, h, h2] at hb
          · simp [hc, h, h2] at hb
            obtain ⟨-, t1, a1, b1⟩ := getArgInt_value env argc argv _ _ _ h
            obtain ⟨-, t2, a2, b2⟩ := getArgInt_value env argc argv _ _ _ h2
            intro q hq1 hq2 _
            have hq : q = p + 1 ∨ q = p + 1 + 1 := by omega
            rcases hq with rfl | rfl
            · exact not_sizeTag_at argv _ t1 a1 b1
            · exact not_sizeTag_at argv _ t2 a2 b2
    rw [if_neg hSz] at hb
    by_cases hO : (arg == "-O" || arg == "--original-icps") = true
    · rw [if_pos hO] at hb
      cases hp : getArgPoints env argc argv (p + 1) v.IcpsOriginal with
      | ok a =>
        obtain ⟨q1, l1⟩ := a
        simp [hp] at hb
        intro q hq1 hq2 hq3
        rw [← hb.1] at hq2
        exact getArgPoints_consumed env hS hL argc argv _ _ _ _ hp q (by omega) hq2 hq3
      | exit c => simp [hp] at hb
      | fuel => simp [hp] at hb
    rw [if_neg hO] at hb
    by_cases hM : (arg == "-M" || arg == "--mapped-icps") = true
    · rw [if_pos hM] at hb
      cases hp : getArgPoints env argc argv (p + 1) v.IcpsMapped with
      | ok a =>
        obtain ⟨q1, l1⟩ := a
        simp [hp] at hb
        intro q hq1 hq2 hq3
        rw [← hb.1] at hq2
        exact getArgPoints_consumed env hS hL argc argv _ _ _ _ hp q (by omega) hq2 hq3
      | exit c => simp [hp] at hb
      | fuel => simp [hp] at hb
    rw [if_neg hM] at hb
    by_cases hH : (arg == "-h" || arg == "--help") = true
    · rw [if_pos hH] at hb
      cases hb
    rw [if_neg hH] at hb
    by_cases hV : (arg == "-v" || arg == "--version") = true
    · rw [if_pos hV] at hb
      cases hb
    rw [if_neg hV] at hb
    cases hb

/-- When the loop of `readCli` returns, it dispatched on every image-size tag
at or after its starting cursor that is not the program name and has an
argument after it. -/
theorem readCliLoop_covers {R F : Type} (env : Env R F)
    (hS : env.scanFloat "-S" = none) (hL : env.scanFloat "--image-size" = none)
    (argc : Nat) (argv : List String) :
    ∀ (fuel p : Nat) (v w : CliVars R F), readCliLoop env argc argv fuel p v = .ok w →
      ∀ q, p ≤ q → 1 ≤ q → q + 1 < argc → isSizeTag (argv.getD q "") = true →
        q ∈ optionPositions env argc argv fuel p v := by
  intro fuel
  induction fuel with
  | zero => intro p v w h; simp [readCliLoop] at h
  | succ f ih =>
    intro p v w h q hq1 hq2 hq3 hq4
    by_cases hp : p < argc
    · rw [readCliLoop, if_pos hp] at h
      rcases readCliBody_cases env argc argv p v with ⟨q1, w1, hb, hlt, -⟩ | hb | ⟨hb, -, -⟩
      · simp only [hb] at h
        rw [optionPositions_succ env argc argv f p v q1 w1 hp hb]
        by_cases hqp : q = p
        · subst hqp
          have h0 : q ≠ 0 := by omega
          simp [h0]
        · by_cases hqq : q < q1
          · have := readCliBody_consumed env hS hL argc argv p v q1 w1 hb q (by omega) hqq hq3
            rw [this] at hq4
            cases hq4
          · exact List.mem_append.mpr (Or.inr (ih q1 w1 w h q (by omega) hq2 hq3 hq4))
      · simp [hb] at h
      · simp [hb] at h
    · omega

/-- On every command line `main` accepts, given that `%f` converts neither
spelling of the image-size tag, the destination size is the pair of
conversions of the two arguments after the last image-size tag that is not the
program name and is not the final argument. -/
theorem main_dsize_last_tag {R F : Type} (env : Env R F)
    (hS : env.scanFloat "-S" = none) (hL : env.scanFloat "--image-size" = none)
    (argv : List String) (job : Rectify F) (hmain : main env argv = .ok job) :
    ∃ p, 1 ≤ p ∧ p + 1 < argv.length ∧ isSizeTag (argv.getD p "") = true ∧
      (∀ q, p < q → q + 1 < argv.length → isSizeTag (argv.getD q "") = false) ∧
      ∃ sW sH, argv[p + 1]? = some sW ∧ argv[p + 2]? = some sH ∧
        env.scanInt sW = some job.dsize.1 ∧ env.scanInt sH = some job.dsize.2 := by
  obtain ⟨p, hp, hs, hlast, sW, sH, e1, e2, c1, c2⟩ := main_dsize_of_ok env argv job hmain
  have hloop : ∃ w, readCliLoop env argv.length argv (argv.length + 1) 0 (mainInit env)
      = .ok w := by
    rcases main_cases env argv with ⟨w, hr, -⟩ | ⟨c, -, hm⟩
    · rcases readCli_cases env argv.length argv (mainInit env) with ⟨w2, -, hl, -⟩ | h2 | ⟨h2, -⟩
      · exact ⟨w2, hl⟩
      · rw [hr] at h2; cases h2
      · rw [hr] at h2; cases h2
    · rw [hmain] at hm; cases hm
  obtain ⟨w, hl⟩ := hloop
  have hp1 : p + 1 < argv.length := by
    have := List.getElem?_eq_some_iff.mp e1
    obtain ⟨hlt, -⟩ := this
    exact hlt
  have hp0 : 1 ≤ p := by
    by_cases h : p = 0
    · subst h
      have hlen : 0 < argv.length := by omega
      rw [optionPositions, if_pos hlen] at hp
      simp at hp
      rcases readCliBody_cases env argv.length argv 0 (mainInit env)
        with ⟨q1, w1, hb, hlt, -⟩ | hb | ⟨hb, -, -⟩
      · simp only [hb] at hp
        have := optionPositions_ge env argv.length argv _ q1 w1 0 hp
        omega
      · simp [hb] at hp
      · simp [hb] at hp
    · omega
  refine ⟨p, hp0, hp1, hs, ?_, sW, sH, e1, e2, c1, c2⟩
  intro q hq1 hq2
  cases hq : isSizeTag (argv.getD q "") with
  | false => rfl
  | true =>
    have hmem := readCliLoop_covers env hS hL argv.length argv _ 0 _ w hl q (by omega)
      (by omega) hq2 hq
    have := hlast q hmem hq1
    rw [this] at hq
    cases hq

end RsmcOrtho
